import Mathlib

/-!
Shallow embedding of `src/models/NeuralHawkesProcess/utils.py` (neural Hawkes
process: uniform-time sampling, Monte-Carlo log-likelihood loss, sequence
padding, and the quadrature-based next-event predictor).

Modelling conventions.

* Real numbers are modelled by `ℚ` (executable exact arithmetic).
* Torch tensors are modelled by (nested) lists; a 2-d tensor is a list of rows.
* Values that torch float arithmetic makes non-finite (NaN from `0/0`, ±inf
  from `x/0` or `log 0`) are modelled by `none : Option ℚ`.  Arithmetic on
  `Option ℚ` propagates `none`, matching the way a NaN or ±inf poisons every
  float reduction it enters.
* Randomness (`uniform_`, `torch.rand`, `np.random.shuffle`) is modelled by
  explicit parameters: a table `u` of underlying draws (a draw from
  `Unif(0, T)` is `T * u` with `u` a draw from `Unif(0, 1)`), and a `shuffle`
  function that is assumed to permute its argument.
* External collaborators of the model object (`intensity_layer`, `decay_cell`,
  `CTLSTM_cell`, `torch.exp`, `torch.log`) are parameters of the definitions;
  the logarithm is `ℚ → Option ℚ` so that `log 0 = -inf` can be expressed as
  `none`.
-/

/-! ### Non-finite-aware scalar arithmetic -/

/-- Addition on float values where `none` stands for a non-finite value. -/
def oadd : Option ℚ → Option ℚ → Option ℚ
  | some a, some b => some (a + b)
  | _, _ => none

/-- Multiplication on float values where `none` stands for a non-finite value. -/
def omul : Option ℚ → Option ℚ → Option ℚ
  | some a, some b => some (a * b)
  | _, _ => none

/-- Negation on float values where `none` stands for a non-finite value. -/
def oneg : Option ℚ → Option ℚ
  | some a => some (-a)
  | none => none

/-- Subtraction on float values where `none` stands for a non-finite value. -/
def osub (a b : Option ℚ) : Option ℚ := oadd a (oneg b)

/-- Sum of a list of float values; any non-finite summand poisons the result,
as it does for a float reduction. -/
def osum (l : List (Option ℚ)) : Option ℚ := l.foldr oadd (some 0)

/-- Float division: a zero divisor yields a non-finite value (NaN for `0/0`,
±inf otherwise), modelled as `none`; torch raises no exception. -/
def pyDiv (a b : ℚ) : Option ℚ := if b = 0 then none else some (a / b)

/-! ### Tensor-operation models -/

/-- Model of `torch.cumsum` along a vector: inclusive running sums. -/
def cumsum : List ℚ → List ℚ
  | [] => []
  | a :: l => a :: (cumsum l).map (fun x => a + x)

/-- Model of `torch.sort(...).values` on a vector of reals (any correct sort
returns the same list, namely the unique sorted permutation). -/
def sortQ (l : List ℚ) : List ℚ := List.insertionSort (fun a b => a ≤ b) l

/-- Model of `torch.Tensor.transpose(1,0)` on a `rows × cols` tensor given as a
list of `rows` rows, each of length `cols`. -/
def tTranspose (cols : ℕ) (m : List (List ℚ)) : List (List ℚ) :=
  (List.range cols).map (fun j => m.map (fun row => row.getD j 0))

/-- Model of Python `range a b` (empty when `b ≤ a`). -/
def pyRange (a b : ℕ) : List ℕ := List.range' a (b - a)

/-! ### `create_unifrom_d` (module-level uniform sampler, utils.py lines 7–32) -/

/-- Lines 26–27 of the source: `sim_inter_time = torch.zeros(batch_len)` then
`sim_inter_time[1:] = sim_time_seqs[1:] - sim_time_seqs[:-1]`.  The entry at
index 0 keeps its initial value `0`; entry `i ≥ 1` is the successive
difference `s[i] - s[i-1]`. -/
def seqGaps : List ℚ → List ℚ
  | [] => []
  | a :: l => 0 :: List.zipWith (fun x y => x - y) l (a :: l)

/-- Variant of `seqGaps` following the claim's words instead of the source:
`gap[0] = firstSample` (the head of the sorted samples) rather than `0`.
Used only to compare the source behaviour against the specified one. -/
def seqGapsClaimed : List ℚ → List ℚ
  | [] => []
  | a :: l => a :: List.zipWith (fun x y => x - y) l (a :: l)

/-- Lines 7–32: `create_unifrom_d`.  For each sequence `b` the total time is
the row sum of `event_times`; `batch_len` fresh draws are scaled to
`Unif(0, tot)`, sorted, turned into gaps by `seqGaps` and shuffled.
`u.getD b []` are the underlying `Unif(0,1)` draws for row `b` (length
`batch_len`), `shuffle b` the permutation applied by `np.random.shuffle`. -/
def create_unifrom_d (event_times : List (List ℚ)) (u : List (List ℚ))
    (shuffle : ℕ → List ℚ → List ℚ) : List (List ℚ) :=
  (List.range event_times.length).map (fun b =>
    let tot := (event_times.getD b []).sum
    shuffle b (seqGaps (sortQ ((u.getD b []).map (fun x => tot * x)))))

/-- Variant of `create_unifrom_d` following the claim's words: identical except
that `gap[0]` is the first sorted sample (`seqGapsClaimed`). -/
def create_unifrom_d_claimed (event_times : List (List ℚ)) (u : List (List ℚ))
    (shuffle : ℕ → List ℚ → List ℚ) : List (List ℚ) :=
  (List.range event_times.length).map (fun b =>
    let tot := (event_times.getD b []).sum
    shuffle b (seqGapsClaimed (sortQ ((u.getD b []).map (fun x => tot * x)))))

/-! ### `LogLikelihoodLoss` (utils.py lines 35–91) -/

namespace LogLikelihoodLoss

/-- Lines 40–50: `create_unif_d`.  One row of `batch_length` draws is produced
per entry of `total_time_seqs`, but every row is scaled by
`total_time_seqs[0]` — the FIRST sequence's horizon — exactly as in the
source (`torch.rand(batch_length).uniform_(0, total_time_seqs[0])`).  The
stacked rows are then transposed (`transpose(1,0)`). -/
def create_unif_d (batch_length : ℕ) (total_time_seqs : List ℚ)
    (u : List (List ℚ)) : List (List ℚ) :=
  tTranspose batch_length
    ((List.range total_time_seqs.length).map (fun b =>
      (u.getD b []).map (fun x => total_time_seqs.getD 0 0 * x)))

/-- Variant of `create_unif_d` following the claim's words: each sequence's
simulated times are scaled by that sequence's OWN horizon
`total_time_seqs[b]` rather than by the first sequence's. -/
def create_unif_d_ownHorizon (batch_length : ℕ) (total_time_seqs : List ℚ)
    (u : List (List ℚ)) : List (List ℚ) :=
  tTranspose batch_length
    ((List.range total_time_seqs.length).map (fun b =>
      (u.getD b []).map (fun x => total_time_seqs.getD b 0 * x)))

/-- Lines 60–68 of `forward`: the event term.  `log_intensity =
model.intensity_layer(hidden_t).log()` with NO clamping of the intensity, then
for each sequence `idx` the values `log_intensity[arr, idx, pos_events]` with
`arr = arange(seq_len)` and `pos_events = event_seq[1:seq_len+1]` are summed.
`rlog` models `torch.log` (`rlog 0 = none`, i.e. `log 0 = -inf`);
`hidden_t` is indexed position-first as in the source (shape S × bs × H). -/
def eventTerm {H : Type} [Inhabited H] (rlog : ℚ → Option ℚ)
    (intensity_layer : H → List ℚ) (hidden_t : List (List H))
    (event_seqs : List (List ℕ)) (seqs_length : List ℕ) : Option ℚ :=
  osum (((event_seqs.zip seqs_length).enum).map (fun p =>
    osum ((List.range p.2.2).map (fun i =>
      rlog ((intensity_layer ((hidden_t.getD i []).getD p.1 default)).getD
        ((p.2.1).getD (i + 1) 0) 0)))))

/-- Lines 74–88 of `forward`: the Monte-Carlo integral term.  Simulated times
come from `create_unif_d` (position-major after the transpose); for position
`i` of sequence `idx`, `decay_cell` re-decays the stored states by the
simulated duration and `intensity_layer` reads out the intensities, summed
over types and positions `i < seq_len` and scaled by the unguarded
coefficient `total_time / seq_len`. -/
def integralTerm {H : Type} [Inhabited H]
    (decay_cell : H → H → H → H → ℚ → H) (intensity_layer : H → List ℚ)
    (cell_t cell_target_t output_t decay_t : List (List H))
    (total_time_seqs : List ℚ) (seqs_length : List ℕ)
    (batch_length : ℕ) (u : List (List ℚ)) : Option ℚ :=
  let sim := create_unif_d batch_length total_time_seqs u
  osum (((total_time_seqs.zip seqs_length).enum).map (fun p =>
    omul (pyDiv p.2.1 (p.2.2 : ℚ))
      (some (((List.range p.2.2).map (fun i =>
        (intensity_layer (decay_cell
          ((cell_t.getD i []).getD p.1 default)
          ((cell_target_t.getD i []).getD p.1 default)
          ((output_t.getD i []).getD p.1 default)
          ((decay_t.getD i []).getD p.1 default)
          ((sim.getD i []).getD p.1 0))).sum)).sum))))

/-- Lines 52–91: `forward` returns `-(original_loglikelihood -
simulated_likelihood)`. -/
def forward {H : Type} [Inhabited H] (rlog : ℚ → Option ℚ)
    (decay_cell : H → H → H → H → ℚ → H) (intensity_layer : H → List ℚ)
    (hidden_t cell_t cell_target_t output_t decay_t : List (List H))
    (event_seqs : List (List ℕ)) (seqs_length : List ℕ)
    (total_time_seqs : List ℚ) (batch_length : ℕ)
    (u : List (List ℚ)) : Option ℚ :=
  oneg (osub (eventTerm rlog intensity_layer hidden_t event_seqs seqs_length)
    (integralTerm decay_cell intensity_layer cell_t cell_target_t output_t
      decay_t total_time_seqs seqs_length batch_length u))

end LogLikelihoodLoss

/-! ### `BeginningOfStream` (utils.py lines 94–108) -/

/-- Lines 94–108: prepend to every event row the sentinel type `type_size`
(`zeros_like(...) + type_size`) and to every time row the time `0`
(`zeros_like(...)`), via `torch.cat` along dim 1; `seq_tot_time` and
`seqs_len` are returned untouched.  Event types are integer codes, so the
final `.long()` cast is the identity on them. -/
def BeginningOfStream (seq_events : List (List ℕ)) (seq_time : List (List ℚ))
    (seq_tot_time : List ℚ) (seqs_len : List ℕ) (type_size : ℕ) :
    List (List ℕ) × List (List ℚ) × List ℚ × List ℕ :=
  (seq_events.map (fun r => type_size :: r),
   seq_time.map (fun r => 0 :: r),
   seq_tot_time, seqs_len)

/-! ### `predict_event` (utils.py lines 143–218)

The quadrature that yields one prediction (lines 186–209) depends on the
current hidden state `h_t` and decay vector only through the decayed hidden
curve `h_t * exp(-decay * t)`; we embed it parametrically in `h_t`, `decay`,
the external `intensity_layer` and the exponential `ex` (a parameter because
`exp` is transcendental; no property of it is assumed unless stated). -/

namespace PredictEvent

/-- Line 188: `timestep = hmax / n_samples`. -/
def timestep (hmax : ℚ) (n : ℕ) : ℚ := hmax / n

/-- Line 191: `torch.linspace(0, hmax, n_samples + 1)`, whose `i`-th entry is
`i * hmax / n`. -/
def time_between_events (hmax : ℚ) (n : ℕ) : List ℚ :=
  (List.range (n + 1)).map (fun i : ℕ => hmax * (i : ℚ) / (n : ℚ))

/-- Line 192: `h_t * torch.exp(-decay * t)` componentwise over hidden units. -/
def hidden_vals (ex : ℚ → ℚ) (h_t decay : List ℚ) (t : ℚ) : List ℚ :=
  List.zipWith (fun hj dj => hj * ex (-(dj * t))) h_t decay

/-- Line 193: per-grid-point intensity vectors
`model.intensity_layer(hidden_vals)`. -/
def intensity (ex : ℚ → ℚ) (il : List ℚ → List ℚ) (h_t decay : List ℚ)
    (hmax : ℚ) (n : ℕ) : List (List ℚ) :=
  (time_between_events hmax n).map (fun t => il (hidden_vals ex h_t decay t))

/-- Line 194: `intensity.sum(dim=1)`, the total intensity at each grid point. -/
def intensity_sum (ex : ℚ → ℚ) (il : List ℚ → List ℚ) (h_t decay : List ℚ)
    (hmax : ℚ) (n : ℕ) : List ℚ :=
  (intensity ex il h_t decay hmax n).map List.sum

/-- Line 198: `torch.cumsum(timestep * intensity.sum(dim=1), dim=0)`, the
running-sum cumulative hazard. -/
def cumHazard (ex : ℚ → ℚ) (il : List ℚ → List ℚ) (h_t decay : List ℚ)
    (hmax : ℚ) (n : ℕ) : List ℚ :=
  cumsum ((intensity_sum ex il h_t decay hmax n).map
    (fun s => timestep hmax n * s))

/-- Line 199: `density = intensity_sum * torch.exp(-density)`, the survival
density at each grid point. -/
def density (ex : ℚ → ℚ) (il : List ℚ → List ℚ) (h_t decay : List ℚ)
    (hmax : ℚ) (n : ℕ) : List ℚ :=
  List.zipWith (fun s c => s * ex (-c))
    (intensity_sum ex il h_t decay hmax n)
    (cumHazard ex il h_t decay hmax n)

/-- Line 202: `t = time_between_events * density`. -/
def tDensity (ex : ℚ → ℚ) (il : List ℚ → List ℚ) (h_t decay : List ℚ)
    (hmax : ℚ) (n : ℕ) : List ℚ :=
  List.zipWith (fun a b => a * b) (time_between_events hmax n)
    (density ex il h_t decay hmax n)

/-- Line 203: `pred_dt = (timestep * 0.5 * (t[1:] + t[:-1])).sum()`, the
trapezoidal-rule integral of `t * density(t)`. -/
def pred_dt (ex : ℚ → ℚ) (il : List ℚ → List ℚ) (h_t decay : List ℚ)
    (hmax : ℚ) (n : ℕ) : ℚ :=
  (List.zipWith (fun a b => timestep hmax n * (1 / 2) * (a + b))
    (tDensity ex il h_t decay hmax n).tail
    (tDensity ex il h_t decay hmax n)).sum

/-- Line 205: `P = intensity / intensity_sum[:, None] * density[:, None]`;
float division, so a zero total intensity makes the entry non-finite
(`none`), torch raises no exception. -/
def P (ex : ℚ → ℚ) (il : List ℚ → List ℚ) (h_t decay : List ℚ)
    (hmax : ℚ) (n : ℕ) : List (List (Option ℚ)) :=
  List.zipWith (fun row sd => row.map (fun x => omul (pyDiv x sd.1) (some sd.2)))
    (intensity ex il h_t decay hmax n)
    (List.zip (intensity_sum ex il h_t decay hmax n)
      (density ex il h_t decay hmax n))

/-- Line 208: component `k` of `(timestep * 0.5 * (P[1:] + P[:-1])).sum(dim=0)`,
the per-type score whose argmax is `pred_type`. -/
def pred_type_score (ex : ℚ → ℚ) (il : List ℚ → List ℚ) (h_t decay : List ℚ)
    (hmax : ℚ) (n : ℕ) (k : ℕ) : Option ℚ :=
  osum (List.zipWith
    (fun r1 r0 => omul (some (timestep hmax n * (1 / 2)))
      (oadd (r1.getD k (some 0)) (r0.getD k (some 0))))
    (P ex il h_t decay hmax n).tail
    (P ex il h_t decay hmax n))

end PredictEvent

/-- Lines 164–216: the recording skeleton of `predict_event`.
`seq_length = seq_time.shape[0] - 1`; the loop runs `for i in range(1,
seq_length)` and appends a (ground-truth, prediction) pair to each of the four
result lists only when `i > 1`.  Ground truths are read at index `i + 1`
(`seq_events[i+1]`, `seq_time[i+1]`) while predictions are computed from the
state after event `i`; both are abstracted as functions of the index. -/
def predict_event_records (timeLen : ℕ) (gt_dt pd_dt : ℕ → ℚ)
    (gt_type pd_type : ℕ → ℕ) : List ℚ × List ℚ × List ℕ × List ℕ :=
  (pyRange 1 (timeLen - 1)).foldl
    (fun acc i =>
      if 1 < i then
        (acc.1 ++ [gt_dt (i + 1)], acc.2.1 ++ [pd_dt i],
         acc.2.2.1 ++ [gt_type (i + 1)], acc.2.2.2 ++ [pd_type i])
      else acc)
    ([], [], [], [])

/-! ### Helper lemmas -/

theorem rangeOne : List.range 1 = [0] := by simp [List.range_succ]

theorem getD_lit_one {α : Type} (a b : α) (l : List α) (d : α) :
    (a :: b :: l).getD 1 d = b := rfl

theorem getD_map_of_lt {α β : Type} (f : α → β) (l : List α) (b : ℕ)
    (hb : b < l.length) (d : β) (d0 : α) :
    (l.map f).getD b d = f (l.getD b d0) := by
  induction l generalizing b with
  | nil => simp at hb
  | cons a t ih =>
    cases b with
    | zero => simp
    | succ m => simpa using ih m (by simpa using hb)

theorem getD_map_range {α : Type} (f : ℕ → α) (d : α) (m b : ℕ) (hb : b < m) :
    ((List.range m).map f).getD b d = f b := by
  rw [getD_map_of_lt f (List.range m) b (by simpa using hb) d 0]
  congr 1
  simp [List.getD_eq_getElem?_getD, List.getElem?_range hb]

theorem getD_zipWith {α : Type} (f : α → α → α) (l1 l2 : List α) (i : ℕ)
    (h1 : i < l1.length) (h2 : i < l2.length) (d : α) :
    (List.zipWith f l1 l2).getD i d = f (l1.getD i d) (l2.getD i d) := by
  induction l1 generalizing l2 i with
  | nil => simp at h1
  | cons a t ih =>
    cases l2 with
    | nil => simp at h2
    | cons b s =>
      cases i with
      | zero => simp
      | succ m =>
        simpa using ih s m (by simpa using h1) (by simpa using h2)

theorem cumsum_length (l : List ℚ) : (cumsum l).length = l.length := by
  induction l with
  | nil => rfl
  | cons a t ih => simp [cumsum, ih]

theorem cumsum_getD (l : List ℚ) (i : ℕ) (hi : i < l.length) :
    (cumsum l).getD i 0 = ∑ j ∈ Finset.range (i + 1), l.getD j 0 := by
  induction l generalizing i with
  | nil => simp at hi
  | cons a t ih =>
    cases i with
    | zero => simp [cumsum]
    | succ m =>
      have hm : m < t.length := by simpa using hi
      have hlen : m < (cumsum t).length := by rw [cumsum_length]; exact hm
      have hstep : (cumsum (a :: t)).getD (m + 1) 0 = a + (cumsum t).getD m 0 := by
        simp only [cumsum, List.getD_cons_succ]
        exact getD_map_of_lt (fun x => a + x) (cumsum t) m hlen 0 0
      rw [hstep, ih m hm,
        Finset.sum_range_succ' (fun j => (a :: t).getD j 0) (m + 1)]
      simp [add_comm]

theorem zipWith_tail_sum (g : ℚ → ℚ → ℚ) (l : List ℚ) :
    (List.zipWith g l.tail l).sum =
      ∑ i ∈ Finset.range (l.length - 1), g (l.getD (i + 1) 0) (l.getD i 0) := by
  induction l with
  | nil => simp
  | cons a t ih =>
    cases t with
    | nil => simp
    | cons b s =>
      have step : List.zipWith g (b :: s) (a :: b :: s)
          = g b a :: List.zipWith g s (b :: s) := by simp
      have ihs := ih
      simp only [List.tail_cons] at ihs ⊢
      rw [step, List.sum_cons, ihs]
      have hlen : (a :: b :: s).length - 1 = s.length + 1 := by simp
      rw [hlen,
        Finset.sum_range_succ'
          (fun i => g ((a :: b :: s).getD (i + 1) 0) ((a :: b :: s).getD i 0))
          s.length]
      simp only [List.getD_cons_succ, List.getD_cons_zero, getD_lit_one,
        List.length_cons, Nat.add_sub_cancel, Nat.zero_add]
      exact add_comm _ _

theorem zipWith_const_right {α β γ : Type} (f : α → β → γ) (l : List α)
    (m : ℕ) (c : β) :
    List.zipWith f l (List.replicate m c) = (l.take m).map (fun a => f a c) := by
  induction l generalizing m with
  | nil => simp
  | cons a t ih =>
    cases m with
    | zero => simp
    | succ k => simp [List.replicate_succ, ih]

theorem cumsum_replicate_zero (m : ℕ) :
    cumsum (List.replicate m (0 : ℚ)) = List.replicate m 0 := by
  induction m with
  | zero => rfl
  | succ k ih => simp [List.replicate_succ, cumsum, ih]

theorem seqGaps_length (s : List ℚ) : (seqGaps s).length = s.length := by
  cases s with
  | nil => rfl
  | cons a l => simp [seqGaps]

theorem seqGaps_getD (s : List ℚ) (i : ℕ) (h0 : 0 < i) (hi : i < s.length) :
    (seqGaps s).getD i 0 = s.getD i 0 - s.getD (i - 1) 0 := by
  cases s with
  | nil => simp at hi
  | cons a l =>
    cases i with
    | zero => simp at h0
    | succ m =>
      have hm : m < l.length := by simpa using hi
      have hm2 : m < (a :: l).length := by simp; omega
      simp only [seqGaps, List.getD_cons_succ, Nat.add_sub_cancel]
      rw [getD_zipWith (fun x y => x - y) l (a :: l) m hm hm2]

theorem sorted_getD_mono (s : List ℚ) (hs : s.Sorted (fun a b => a ≤ b))
    (i j : ℕ) (hij : i < j) (hj : j < s.length) : s.getD i 0 ≤ s.getD j 0 := by
  have hi : i < s.length := lt_trans hij hj
  have h := List.pairwise_iff_get.mp hs ⟨i, hi⟩ ⟨j, hj⟩ (by simpa using hij)
  simpa [List.get_eq_getElem, List.getD_eq_getElem?_getD,
    List.getElem?_eq_getElem, hi, hj] using h

theorem seqGaps_nonneg (s : List ℚ) (hs : s.Sorted (fun a b => a ≤ b)) :
    ∀ x ∈ seqGaps s, 0 ≤ x := by
  intro x hx
  cases s with
  | nil => simp [seqGaps] at hx
  | cons a l =>
    simp only [seqGaps, List.mem_cons] at hx
    rcases hx with h0 | hz
    · simp [h0]
    · rcases List.mem_iff_getElem.mp hz with ⟨i, hilt, hieq⟩
      have hil : i < l.length := by
        have := hilt
        simp at this
        omega
      have hia : i < (a :: l).length := by simp; omega
      have hval : x = l.getD i 0 - (a :: l).getD i 0 := by
        rw [← hieq, ← List.getD_eq_getElem (List.zipWith (fun x y => x - y) l (a :: l)) 0 hilt]
        exact getD_zipWith (fun x y => x - y) l (a :: l) i hil hia 0
      have hmono : (a :: l).getD i 0 ≤ (a :: l).getD (i + 1) 0 :=
        sorted_getD_mono (a :: l) hs i (i + 1) (by omega) (by simp; omega)
      have hsucc : (a :: l).getD (i + 1) 0 = l.getD i 0 := by simp
      rw [hval]
      rw [hsucc] at hmono
      linarith

theorem map_zero_replicate (l : List ℚ) :
    l.map (fun _ => (0 : ℚ)) = List.replicate l.length 0 := by
  induction l with
  | nil => rfl
  | cons a t ih => simp [ih, List.replicate_succ]

theorem filtered_indices (m : ℕ) :
    (pyRange 1 m).filter (fun i => decide (1 < i)) = List.range' 2 (m - 2) := by
  match m with
  | 0 => rfl
  | 1 => rfl
  | j + 2 =>
    have h1 : pyRange 1 (j + 2) = 1 :: List.range' 2 j := by
      simp [pyRange, List.range'_succ]
    rw [h1]
    have h2 : (List.range' 2 j).filter (fun i => decide (1 < i)) = List.range' 2 j := by
      rw [List.filter_eq_self]
      intro a ha
      have := List.mem_range'_1.mp ha
      simpa using by omega
    simp [h2]

theorem records_foldl (f g : ℕ → ℚ) (h k : ℕ → ℕ) (l : List ℕ)
    (A B : List ℚ) (C D : List ℕ) :
    l.foldl
      (fun acc i =>
        if 1 < i then
          (acc.1 ++ [f (i + 1)], acc.2.1 ++ [g i],
           acc.2.2.1 ++ [h (i + 1)], acc.2.2.2 ++ [k i])
        else acc)
      (A, B, C, D)
    = (A ++ (l.filter (fun i => decide (1 < i))).map (fun i => f (i + 1)),
       B ++ (l.filter (fun i => decide (1 < i))).map g,
       C ++ (l.filter (fun i => decide (1 < i))).map (fun i => h (i + 1)),
       D ++ (l.filter (fun i => decide (1 < i))).map k) := by
  induction l generalizing A B C D with
  | nil => simp
  | cons a t ih =>
    by_cases ha : 1 < a
    · simp [List.foldl_cons, ha, ih]
    · simp [List.foldl_cons, ha, ih]

theorem oadd_none_left (b : Option ℚ) : oadd none b = none := by cases b <;> rfl

theorem oadd_none_right (a : Option ℚ) : oadd a none = none := by cases a <;> rfl

theorem omul_none_left (b : Option ℚ) : omul none b = none := by cases b <;> rfl

theorem zip_replicate_same {α β : Type} (a : α) (b : β) (m : ℕ) :
    List.zip (List.replicate m a) (List.replicate m b) = List.replicate m (a, b) := by
  induction m with
  | zero => rfl
  | succ k ih => simp [List.replicate_succ, ih]

namespace PredictEvent

theorem length_time_between_events (hmax : ℚ) (n : ℕ) :
    (time_between_events hmax n).length = n + 1 := by
  rw [time_between_events, List.length_map, List.length_range]

theorem length_intensity (ex : ℚ → ℚ) (il : List ℚ → List ℚ)
    (h_t decay : List ℚ) (hmax : ℚ) (n : ℕ) :
    (intensity ex il h_t decay hmax n).length = n + 1 := by
  rw [intensity, List.length_map, length_time_between_events]

theorem length_intensity_sum (ex : ℚ → ℚ) (il : List ℚ → List ℚ)
    (h_t decay : List ℚ) (hmax : ℚ) (n : ℕ) :
    (intensity_sum ex il h_t decay hmax n).length = n + 1 := by
  rw [intensity_sum, List.length_map, length_intensity]

theorem intensity_sum_of_zero (ex : ℚ → ℚ) (il : List ℚ → List ℚ)
    (h_t decay : List ℚ) (hmax : ℚ) (n : ℕ)
    (hz : ∀ t ∈ time_between_events hmax n,
      (il (hidden_vals ex h_t decay t)).sum = 0) :
    intensity_sum ex il h_t decay hmax n = List.replicate (n + 1) 0 := by
  rw [List.eq_replicate_iff]
  refine ⟨length_intensity_sum ex il h_t decay hmax n, ?_⟩
  intro b hb
  simp only [intensity_sum, intensity, List.map_map, List.mem_map,
    Function.comp] at hb
  obtain ⟨t, ht, hbe⟩ := hb
  rw [← hbe]
  exact hz t ht

theorem density_of_zero (ex : ℚ → ℚ) (il : List ℚ → List ℚ)
    (h_t decay : List ℚ) (hmax : ℚ) (n : ℕ)
    (hz : ∀ t ∈ time_between_events hmax n,
      (il (hidden_vals ex h_t decay t)).sum = 0) :
    density ex il h_t decay hmax n = List.replicate (n + 1) 0 := by
  have hs := intensity_sum_of_zero ex il h_t decay hmax n hz
  rw [density, cumHazard, hs]
  have hmap : (List.replicate (n + 1) (0 : ℚ)).map (fun s => timestep hmax n * s)
      = List.replicate (n + 1) 0 := by simp
  rw [hmap, cumsum_replicate_zero, zipWith_const_right]
  simp

theorem pred_dt_of_zero (ex : ℚ → ℚ) (il : List ℚ → List ℚ)
    (h_t decay : List ℚ) (hmax : ℚ) (n : ℕ)
    (hz : ∀ t ∈ time_between_events hmax n,
      (il (hidden_vals ex h_t decay t)).sum = 0) :
    pred_dt ex il h_t decay hmax n = 0 := by
  have hd := density_of_zero ex il h_t decay hmax n hz
  have htd : tDensity ex il h_t decay hmax n = List.replicate (n + 1) 0 := by
    rw [tDensity, hd, zipWith_const_right]
    simp only [mul_zero]
    rw [map_zero_replicate]
    congr 1
    simp [length_time_between_events]
  rw [pred_dt, htd]
  have htail : (List.replicate (n + 1) (0 : ℚ)).tail = List.replicate n 0 := by
    simp [List.replicate_succ]
  rw [htail, zipWith_const_right]
  simp

theorem P_of_zero (ex : ℚ → ℚ) (il : List ℚ → List ℚ)
    (h_t decay : List ℚ) (hmax : ℚ) (n : ℕ)
    (hz : ∀ t ∈ time_between_events hmax n,
      (il (hidden_vals ex h_t decay t)).sum = 0) :
    P ex il h_t decay hmax n =
      (intensity ex il h_t decay hmax n).map
        (fun row => row.map (fun _ => (none : Option ℚ))) := by
  have hs := intensity_sum_of_zero ex il h_t decay hmax n hz
  have hd := density_of_zero ex il h_t decay hmax n hz
  rw [P, hs, hd, zip_replicate_same, zipWith_const_right]
  have htake : (intensity ex il h_t decay hmax n).take (n + 1)
      = intensity ex il h_t decay hmax n := by
    apply List.take_of_length_le
    rw [length_intensity]
  rw [htake]
  simp [pyDiv, omul_none_left]

end PredictEvent

/-! ### Claim theorems -/

/-- C1: the claim states that in the uniform-time sampling used by the
log-likelihood estimator (`LogLikelihoodLoss.create_unif_d`), every sequence's
simulated times are drawn from `[0, T_b]` with that sequence's own horizon.
The code instead scales every row by `total_time_seqs[0]`: with horizons
`[1, 2]` and underlying unit draws, the simulated time of sequence 1 is
`1 = 1 * T_0`, whereas scaling by its own horizon would give `2`.  The loop
variable `tot_time` in the source is never used — a slip; the sibling
sampler `create_unifrom_d` does use the per-sequence horizon. -/
theorem create_unif_d_uses_first_horizon :
    LogLikelihoodLoss.create_unif_d 1 [1, 2] [[1], [1]] = [[1, 1]] ∧
    LogLikelihoodLoss.create_unif_d_ownHorizon 1 [1, 2] [[1], [1]] = [[1, 2]] ∧
    LogLikelihoodLoss.create_unif_d 1 [1, 2] [[1], [1]] ≠
      LogLikelihoodLoss.create_unif_d_ownHorizon 1 [1, 2] [[1], [1]] := by
  have h1 : LogLikelihoodLoss.create_unif_d 1 [1, 2] [[1], [1]] = [[1, 1]] := by
    norm_num [LogLikelihoodLoss.create_unif_d, tTranspose, List.range_succ, rangeOne]
  have h2 : LogLikelihoodLoss.create_unif_d_ownHorizon 1 [1, 2] [[1], [1]]
      = [[1, 2]] := by
    norm_num [LogLikelihoodLoss.create_unif_d_ownHorizon, tTranspose,
      List.range_succ, rangeOne, getD_lit_one]
  refine ⟨h1, h2, ?_⟩
  rw [h1, h2]
  simp

/-- C2: the claim states that a sequence with `L_b = 0`, `T_b = 0` is
explicitly guarded against division by zero in the Monte-Carlo coefficient
`T_b / L_b` and contributes exactly `0` to both loss terms.  The code has no
guard: on a batch holding one empty sequence the event term is `0` but the
integral term computes the float division `0 / 0` (NaN, modelled `none`), so
that sequence contributes a non-finite value — not `0` — and the whole batch
loss is poisoned. -/
theorem forward_empty_sequence_unguarded :
    LogLikelihoodLoss.eventTerm (H := ℚ) (fun x => some x) (fun h => [h])
      [[0]] [[7]] [0] = some 0 ∧
    LogLikelihoodLoss.integralTerm (H := ℚ) (fun _ _ _ _ d => d) (fun h => [h])
      [[0]] [[0]] [[0]] [[0]] [0] [0] 1 [[0]] = none ∧
    LogLikelihoodLoss.forward (H := ℚ) (fun x => some x) (fun _ _ _ _ d => d)
      (fun h => [h]) [[0]] [[0]] [[0]] [[0]] [[0]] [[7]] [0] [0] 1 [[0]]
      = none := by
  refine ⟨?_, ?_, ?_⟩
  · norm_num [LogLikelihoodLoss.eventTerm, List.enum, osum, oadd]
  · norm_num [LogLikelihoodLoss.integralTerm, LogLikelihoodLoss.create_unif_d,
      tTranspose, List.range_succ, rangeOne, List.enum, osum, oadd, omul, pyDiv]
  · norm_num [LogLikelihoodLoss.forward, LogLikelihoodLoss.eventTerm,
      LogLikelihoodLoss.integralTerm, LogLikelihoodLoss.create_unif_d,
      tTranspose, List.range_succ, rangeOne, List.enum, osum, oadd, omul,
      oneg, osub, pyDiv]

/-- C3: the claim states that every intensity value is clamped away from zero
before its logarithm is taken, so a zero intensity can never produce `-inf`
in the event-term sum.  The code computes `intensity.log()` with no clamp:
for any logarithm with `log 0 = -inf` (hypothesis `hlog`), a batch whose
intensity for the observed type is `0` makes the event term non-finite
(`none`), i.e. `-inf` does reach and corrupt the sum. -/
theorem eventTerm_unclamped_log (rlog : ℚ → Option ℚ) (hlog : rlog 0 = none) :
    LogLikelihoodLoss.eventTerm (H := ℚ) rlog (fun _ => [0]) [[0]] [[9, 0]] [1]
      = none := by
  simp [LogLikelihoodLoss.eventTerm, List.enum, osum, oadd, hlog, rangeOne,
    getD_lit_one]

/-- Witness for C3: a concrete logarithm stand-in with `rlog 0 = none`
exhibits the `-inf` event term. -/
theorem eventTerm_unclamped_log_witness :
    (fun x : ℚ => if x = 0 then none else some x) 0 = none ∧
    LogLikelihoodLoss.eventTerm (H := ℚ)
      (fun x : ℚ => if x = 0 then none else some x) (fun _ => [0]) [[0]]
      [[9, 0]] [1] = none :=
  ⟨by norm_num, eventTerm_unclamped_log _ (by norm_num)⟩

/-- C7: the claim states the scalar batch loss is invariant under permuting
the sequences of a batch (with the per-sequence randomness permuted along).
Because `create_unif_d` scales every row by the FIRST sequence's horizon, the
loss is not invariant: a two-sequence batch whose rows are identical except
for horizons `[1, 2]` yields loss `3`, but after swapping the two sequences
(horizons `[2, 1]`, all other inputs symmetric) it yields `6`. -/
theorem forward_not_permutation_invariant :
    LogLikelihoodLoss.forward (H := ℚ) (fun x => some x) (fun _ _ _ _ d => d)
      (fun h => [h]) [[0, 0], [0, 0]] [[0, 0], [0, 0]] [[0, 0], [0, 0]]
      [[0, 0], [0, 0]] [[0, 0], [0, 0]] [[5, 0], [5, 0]] [1, 1] [1, 2] 2
      [[1, 1], [1, 1]] = some 3 ∧
    LogLikelihoodLoss.forward (H := ℚ) (fun x => some x) (fun _ _ _ _ d => d)
      (fun h => [h]) [[0, 0], [0, 0]] [[0, 0], [0, 0]] [[0, 0], [0, 0]]
      [[0, 0], [0, 0]] [[0, 0], [0, 0]] [[5, 0], [5, 0]] [1, 1] [2, 1] 2
      [[1, 1], [1, 1]] = some 6 ∧
    (some (3 : ℚ)) ≠ some 6 := by
  refine ⟨?_, ?_, by norm_num⟩
  · norm_num [LogLikelihoodLoss.forward, LogLikelihoodLoss.eventTerm,
      LogLikelihoodLoss.integralTerm, LogLikelihoodLoss.create_unif_d,
      tTranspose, List.range_succ, rangeOne, List.enum, osum, oadd, omul,
      oneg, osub, pyDiv, getD_lit_one, -List.getD_eq_getElem?_getD]
  · norm_num [LogLikelihoodLoss.forward, LogLikelihoodLoss.eventTerm,
      LogLikelihoodLoss.integralTerm, LogLikelihoodLoss.create_unif_d,
      tTranspose, List.range_succ, rangeOne, List.enum, osum, oadd, omul,
      oneg, osub, pyDiv, getD_lit_one, -List.getD_eq_getElem?_getD]

/-- C4 counterexample: the claim states `gap[0]` equals the first sorted
sample.  On one sequence with total time `1`, draws `[3/4, 1/2]` and the
identity shuffle, the sorted samples are `[1/2, 3/4]`; the code produces
gaps `[0, 1/4]` (index 0 keeps the `torch.zeros` initial value) while the
claimed pipeline would produce `[1/2, 1/4]`. -/
theorem create_unifrom_d_first_gap_zero_cex :
    create_unifrom_d [[1/2, 1/2]] [[3/4, 1/2]] (fun _ l => l) = [[0, 1/4]] ∧
    create_unifrom_d_claimed [[1/2, 1/2]] [[3/4, 1/2]] (fun _ l => l)
      = [[1/2, 1/4]] ∧
    create_unifrom_d [[1/2, 1/2]] [[3/4, 1/2]] (fun _ l => l) ≠
      create_unifrom_d_claimed [[1/2, 1/2]] [[3/4, 1/2]] (fun _ l => l) := by
  have h1 : create_unifrom_d [[1/2, 1/2]] [[3/4, 1/2]] (fun _ l => l)
      = [[0, 1/4]] := by
    norm_num [create_unifrom_d, sortQ, List.insertionSort, List.orderedInsert,
      seqGaps, rangeOne]
  have h2 : create_unifrom_d_claimed [[1/2, 1/2]] [[3/4, 1/2]] (fun _ l => l)
      = [[1/2, 1/4]] := by
    norm_num [create_unifrom_d_claimed, sortQ, List.insertionSort,
      List.orderedInsert, seqGapsClaimed, rangeOne]
  refine ⟨h1, h2, ?_⟩
  rw [h1, h2]
  norm_num

/-- C8 counterexample: the claim states the loss-class sampler's output has
the same `(batch_size, sequence_length)` shape as the input buffer.  For a
batch of 2 sequences of length 3, `LogLikelihoodLoss.create_unif_d` returns
3 rows of length 2 — the transpose — not 2 rows of length 3. -/
theorem create_unif_d_transposed_shape_cex :
    (LogLikelihoodLoss.create_unif_d 3 [5, 7] [[0, 0, 0], [0, 0, 0]]).length
      = 3 ∧
    ((LogLikelihoodLoss.create_unif_d 3 [5, 7]
      [[0, 0, 0], [0, 0, 0]]).getD 0 []).length = 2 ∧
    ¬((LogLikelihoodLoss.create_unif_d 3 [5, 7]
      [[0, 0, 0], [0, 0, 0]]).length = 2) := by
  refine ⟨?_, ?_, ?_⟩ <;>
    norm_num [LogLikelihoodLoss.create_unif_d, tTranspose, List.range_succ,
      rangeOne]

/-- C4 (amended): for every batch and sequence `b`, the sampler draws
`batch_len` values scaled uniformly to `[0, T_b]`, sorts them ascending,
converts them to gaps with `gap[0] = 0` (not the first sorted sample — the
index-0 slot keeps the `torch.zeros` initialisation) and `gap[i] =
sample[i] − sample[i−1]` for `i ≥ 1`, and randomly permutes the gaps within
the sequence. -/
theorem create_unifrom_d_pipeline (event_times u : List (List ℚ))
    (shuffle : ℕ → List ℚ → List ℚ)
    (hsh : ∀ b l, List.Perm (shuffle b l) l) (b : ℕ)
    (hb : b < event_times.length) :
    List.Perm ((create_unifrom_d event_times u shuffle).getD b [])
      (seqGaps (sortQ ((u.getD b []).map
        (fun x => (event_times.getD b []).sum * x)))) ∧
    List.Perm
      (sortQ ((u.getD b []).map (fun x => (event_times.getD b []).sum * x)))
      ((u.getD b []).map (fun x => (event_times.getD b []).sum * x)) ∧
    (sortQ ((u.getD b []).map
      (fun x => (event_times.getD b []).sum * x))).Sorted (fun a c => a ≤ c) ∧
    (seqGaps (sortQ ((u.getD b []).map
      (fun x => (event_times.getD b []).sum * x)))).length
      = (u.getD b []).length ∧
    (seqGaps (sortQ ((u.getD b []).map
      (fun x => (event_times.getD b []).sum * x)))).getD 0 0 = 0 ∧
    (∀ i, 0 < i →
      i < (sortQ ((u.getD b []).map
        (fun x => (event_times.getD b []).sum * x))).length →
      (seqGaps (sortQ ((u.getD b []).map
        (fun x => (event_times.getD b []).sum * x)))).getD i 0
        = (sortQ ((u.getD b []).map
            (fun x => (event_times.getD b []).sum * x))).getD i 0
          - (sortQ ((u.getD b []).map
              (fun x => (event_times.getD b []).sum * x))).getD (i - 1) 0) := by
  have hrow : (create_unifrom_d event_times u shuffle).getD b []
      = shuffle b (seqGaps (sortQ ((u.getD b []).map
          (fun x => (event_times.getD b []).sum * x)))) := by
    rw [create_unifrom_d, getD_map_range _ _ _ _ hb]
  have hsorted : (sortQ ((u.getD b []).map
      (fun x => (event_times.getD b []).sum * x))).Sorted (fun a c => a ≤ c) :=
    List.sorted_insertionSort _ _
  have hperm : List.Perm
      (sortQ ((u.getD b []).map (fun x => (event_times.getD b []).sum * x)))
      ((u.getD b []).map (fun x => (event_times.getD b []).sum * x)) :=
    List.perm_insertionSort _ _
  refine ⟨?_, hperm, hsorted, ?_, ?_, ?_⟩
  · rw [hrow]
    exact hsh b _
  · rw [seqGaps_length, hperm.length_eq, List.length_map]
  · cases hcase : sortQ ((u.getD b []).map
        (fun x => (event_times.getD b []).sum * x)) with
    | nil => simp [seqGaps]
    | cons a l => simp [seqGaps]
  · intro i hi0 hil
    exact seqGaps_getD _ i hi0 hil

/-- Witness for C4: the amended pipeline instantiated on a concrete batch
(one sequence, total time `1`, draws `[3/4, 1/2]`, identity shuffle). -/
theorem create_unifrom_d_pipeline_witness :
    List.Perm
      ((create_unifrom_d [[1/2, 1/2]] [[3/4, 1/2]] (fun _ l => l)).getD 0 [])
      (seqGaps (sortQ ((([[3/4, 1/2]] : List (List ℚ)).getD 0 []).map
        (fun x => (([[1/2, 1/2]] : List (List ℚ)).getD 0 []).sum * x)))) :=
  (create_unifrom_d_pipeline [[1/2, 1/2]] [[3/4, 1/2]] (fun _ l => l)
    (fun _ l => List.Perm.refl l) 0 (by norm_num)).1

/-- C8 (amended): `create_unifrom_d` preserves the batch shape — one output
row per input sequence, of the same length as that row's draws — and all its
values are ≥ 0 (gaps of a sorted list, then permuted).
`LogLikelihoodLoss.create_unif_d` instead returns the TRANSPOSED shape:
`batch_length` rows, each of length `batch_size = total_time_seqs.length`;
its values are ≥ 0 provided the underlying draws and the first horizon are
≥ 0. -/
theorem samplers_shape_and_nonneg (event_times u : List (List ℚ))
    (shuffle : ℕ → List ℚ → List ℚ)
    (hsh : ∀ b l, List.Perm (shuffle b l) l)
    (batch_length : ℕ) (total_time_seqs : List ℚ)
    (hT0 : 0 ≤ total_time_seqs.getD 0 0)
    (hu : ∀ r ∈ u, ∀ x ∈ r, 0 ≤ x) :
    (create_unifrom_d event_times u shuffle).length = event_times.length ∧
    (∀ b, b < event_times.length →
      ((create_unifrom_d event_times u shuffle).getD b []).length
        = (u.getD b []).length) ∧
    (∀ b, b < event_times.length →
      ∀ x ∈ (create_unifrom_d event_times u shuffle).getD b [], 0 ≤ x) ∧
    (LogLikelihoodLoss.create_unif_d batch_length total_time_seqs u).length
      = batch_length ∧
    (∀ j, j < batch_length →
      ((LogLikelihoodLoss.create_unif_d batch_length
          total_time_seqs u).getD j []).length = total_time_seqs.length) ∧
    (∀ j, j < batch_length →
      ∀ x ∈ (LogLikelihoodLoss.create_unif_d batch_length
          total_time_seqs u).getD j [], 0 ≤ x) := by
  refine ⟨?_, ?_, ?_, ?_, ?_, ?_⟩
  · simp [create_unifrom_d]
  · intro b hb
    rw [create_unifrom_d, getD_map_range _ _ _ _ hb]
    rw [(hsh b _).length_eq, seqGaps_length, sortQ,
      (List.perm_insertionSort _ _).length_eq, List.length_map]
  · intro b hb x hx
    rw [create_unifrom_d, getD_map_range _ _ _ _ hb] at hx
    have hx2 := (hsh b _).mem_iff.mp hx
    exact seqGaps_nonneg _ (List.sorted_insertionSort _ _) x hx2
  · simp [LogLikelihoodLoss.create_unif_d, tTranspose]
  · intro j hj
    rw [LogLikelihoodLoss.create_unif_d, tTranspose, getD_map_range _ _ _ _ hj]
    simp
  · intro j hj x hx
    rw [LogLikelihoodLoss.create_unif_d, tTranspose, getD_map_range _ _ _ _ hj] at hx
    rw [List.mem_map] at hx
    obtain ⟨r, hr, hxr⟩ := hx
    rw [List.mem_map] at hr
    obtain ⟨b, _, hrb⟩ := hr
    subst hrb
    rw [← hxr, List.getD_eq_getElem?_getD, List.getElem?_map]
    rcases hcell2 : (u.getD b [])[j]? with _ | w
    · simp
    · have hw : w ∈ u.getD b [] := List.getElem?_mem hcell2
      have hwmem : 0 ≤ w := by
        by_cases hbu : b < u.length
        · have hmem : u.getD b [] ∈ u := by
            rw [List.getD_eq_getElem u [] hbu]
            exact List.getElem_mem hbu
          exact hu _ hmem w hw
        · rw [List.getD_eq_default u [] (by omega)] at hw
          simp at hw
      simpa using mul_nonneg hT0 hwmem

/-- Witness for C8: the shape facts instantiated on a concrete batch of two
sequences of length three with zero draws. -/
theorem samplers_shape_and_nonneg_witness :
    (create_unifrom_d [[1, 1, 1], [2, 2, 2]] [[0, 0, 0], [0, 0, 0]]
      (fun _ l => l)).length = ([[1, 1, 1], [2, 2, 2]] : List (List ℚ)).length :=
  (samplers_shape_and_nonneg [[1, 1, 1], [2, 2, 2]] [[0, 0, 0], [0, 0, 0]]
    (fun _ l => l) (fun _ l => List.Perm.refl l) 3 [5, 7] (by norm_num)
    (by norm_num)).1

/-- C9: `BeginningOfStream` inserts exactly one synthetic leading element per
sequence — type `type_size` (the sentinel, one past all real types) and time
`0` — shifting every original element right by one position unchanged, and
returns `seq_tot_time` and `seqs_len` exactly as given. -/
theorem BeginningOfStream_padding (seq_events : List (List ℕ))
    (seq_time : List (List ℚ)) (seq_tot_time : List ℚ) (seqs_len : List ℕ)
    (type_size : ℕ) (b : ℕ) (hbe : b < seq_events.length)
    (hbt : b < seq_time.length) :
    ((BeginningOfStream seq_events seq_time seq_tot_time seqs_len
        type_size).1.getD b []).getD 0 0 = type_size ∧
    ((BeginningOfStream seq_events seq_time seq_tot_time seqs_len
        type_size).2.1.getD b []).getD 0 0 = 0 ∧
    ((BeginningOfStream seq_events seq_time seq_tot_time seqs_len
        type_size).1.getD b []).length = (seq_events.getD b []).length + 1 ∧
    ((BeginningOfStream seq_events seq_time seq_tot_time seqs_len
        type_size).2.1.getD b []).length = (seq_time.getD b []).length + 1 ∧
    (∀ i, ((BeginningOfStream seq_events seq_time seq_tot_time seqs_len
        type_size).1.getD b []).getD (i + 1) 0
      = (seq_events.getD b []).getD i 0) ∧
    (∀ i, ((BeginningOfStream seq_events seq_time seq_tot_time seqs_len
        type_size).2.1.getD b []).getD (i + 1) 0
      = (seq_time.getD b []).getD i 0) ∧
    (BeginningOfStream seq_events seq_time seq_tot_time seqs_len
      type_size).2.2.1 = seq_tot_time ∧
    (BeginningOfStream seq_events seq_time seq_tot_time seqs_len
      type_size).2.2.2 = seqs_len := by
  have he : (BeginningOfStream seq_events seq_time seq_tot_time seqs_len
      type_size).1.getD b [] = type_size :: seq_events.getD b [] := by
    rw [BeginningOfStream]
    exact getD_map_of_lt _ seq_events b hbe [] []
  have ht : (BeginningOfStream seq_events seq_time seq_tot_time seqs_len
      type_size).2.1.getD b [] = 0 :: seq_time.getD b [] := by
    rw [BeginningOfStream]
    exact getD_map_of_lt _ seq_time b hbt [] []
  refine ⟨?_, ?_, ?_, ?_, ?_, ?_, rfl, rfl⟩
  · rw [he]; rfl
  · rw [ht]; rfl
  · rw [he]; rfl
  · rw [ht]; rfl
  · intro i; rw [he]; rfl
  · intro i; rw [ht]; rfl

/-- Witness for C9: padding a concrete two-sequence batch with sentinel type
`4`. -/
theorem BeginningOfStream_padding_witness :
    ((BeginningOfStream [[2, 0], [1, 3]] [[1, 2], [3, 4]] [3, 7] [2, 2]
        4).1.getD 0 []).getD 0 0 = 4 :=
  (BeginningOfStream_padding [[2, 0], [1, 3]] [[1, 2], [3, 4]] [3, 7] [2, 2]
    4 0 (by norm_num) (by norm_num)).1

/-- C10: `predict_event` records a (ground-truth, prediction) pair only for
loop indices `i` with `2 ≤ i ≤ seqLength − 1` (where `seqLength` is the time
length minus one); all four returned lists therefore have length
`max 0 (seqLength − 2)` (here `seqLength − 2` in truncated ℕ subtraction),
and for `seqLength ≤ 2` all four lists are empty without any error. -/
theorem predict_event_records_structure (timeLen : ℕ) (gt_dt pd_dt : ℕ → ℚ)
    (gt_type pd_type : ℕ → ℕ) :
    predict_event_records timeLen gt_dt pd_dt gt_type pd_type
      = ((List.range' 2 (timeLen - 1 - 2)).map (fun i => gt_dt (i + 1)),
         (List.range' 2 (timeLen - 1 - 2)).map pd_dt,
         (List.range' 2 (timeLen - 1 - 2)).map (fun i => gt_type (i + 1)),
         (List.range' 2 (timeLen - 1 - 2)).map pd_type) ∧
    (predict_event_records timeLen gt_dt pd_dt gt_type pd_type).1.length
      = timeLen - 1 - 2 ∧
    (predict_event_records timeLen gt_dt pd_dt gt_type pd_type).2.1.length
      = timeLen - 1 - 2 ∧
    (predict_event_records timeLen gt_dt pd_dt gt_type pd_type).2.2.1.length
      = timeLen - 1 - 2 ∧
    (predict_event_records timeLen gt_dt pd_dt gt_type pd_type).2.2.2.length
      = timeLen - 1 - 2 ∧
    (∀ i, i ∈ List.range' 2 (timeLen - 1 - 2)
      ↔ 2 ≤ i ∧ i ≤ timeLen - 1 - 1) ∧
    (timeLen - 1 ≤ 2 →
      predict_event_records timeLen gt_dt pd_dt gt_type pd_type
        = ([], [], [], [])) := by
  have hmain : predict_event_records timeLen gt_dt pd_dt gt_type pd_type
      = ((List.range' 2 (timeLen - 1 - 2)).map (fun i => gt_dt (i + 1)),
         (List.range' 2 (timeLen - 1 - 2)).map pd_dt,
         (List.range' 2 (timeLen - 1 - 2)).map (fun i => gt_type (i + 1)),
         (List.range' 2 (timeLen - 1 - 2)).map pd_type) := by
    rw [predict_event_records,
      records_foldl gt_dt pd_dt gt_type pd_type (pyRange 1 (timeLen - 1))
        [] [] [] [],
      filtered_indices]
    simp
  refine ⟨hmain, ?_, ?_, ?_, ?_, ?_, ?_⟩
  · rw [hmain]; simp
  · rw [hmain]; simp
  · rw [hmain]; simp
  · rw [hmain]; simp
  · intro i
    rw [List.mem_range'_1]
    omega
  · intro hshort
    rw [hmain]
    have h0 : timeLen - 1 - 2 = 0 := by omega
    rw [h0]
    simp

/-- Witness for C10: at time length 3 (`seqLength = 2`) all four lists are
empty. -/
theorem predict_event_records_structure_witness :
    (3 : ℕ) - 1 ≤ 2 ∧
    predict_event_records 3 (fun i => (i : ℚ)) (fun i => (i : ℚ))
      (fun i => i) (fun i => i) = ([], [], [], []) :=
  ⟨by norm_num,
    (predict_event_records_structure 3 (fun i => (i : ℚ)) (fun i => (i : ℚ))
      (fun i => i) (fun i => i)).2.2.2.2.2.2 (by norm_num)⟩

/-- C5 counterexample: the claim states that with total intensity 0 at every
grid point the predicted inter-arrival time tends to `horizonMax` and the
type is chosen by a documented tie-break.  At the source defaults
(`hmax = 40`, `n_samples = 1000`) and an identically-zero intensity layer,
the code's predicted time is exactly `0` — the density is identically zero,
so the trapezoidal integral vanishes — not the horizon `40`. -/
theorem pred_dt_zero_intensity_cex :
    PredictEvent.pred_dt (fun x => x) (fun _ => [0]) [1] [1] 40 1000 = 0 ∧
    (0 : ℚ) ≠ 40 :=
  ⟨PredictEvent.pred_dt_of_zero (fun x => x) (fun _ => [0]) [1] [1] 40 1000
    (by intro t ht; simp), by norm_num⟩

/-- C5 (amended): when the total intensity is 0 at every grid point the call
does not fail: the survival density is identically 0, the predicted
inter-arrival time is exactly `0` (not `horizonMax`), and every entry of the
type-probability tensor `P` is the float division `0 / 0` — NaN, modelled
`none` — so the subsequent argmax is over NaNs and no documented tie-break
exists. -/
theorem predict_zero_intensity_behavior (ex : ℚ → ℚ) (il : List ℚ → List ℚ)
    (h_t decay : List ℚ) (hmax : ℚ) (n : ℕ)
    (hz : ∀ t ∈ PredictEvent.time_between_events hmax n,
      (il (PredictEvent.hidden_vals ex h_t decay t)).sum = 0) :
    PredictEvent.pred_dt ex il h_t decay hmax n = 0 ∧
    ∀ r ∈ PredictEvent.P ex il h_t decay hmax n, ∀ e ∈ r, e = none := by
  refine ⟨PredictEvent.pred_dt_of_zero ex il h_t decay hmax n hz, ?_⟩
  intro r hr e he
  rw [PredictEvent.P_of_zero ex il h_t decay hmax n hz] at hr
  rw [List.mem_map] at hr
  obtain ⟨row, _, hrow⟩ := hr
  subst hrow
  rw [List.mem_map] at he
  obtain ⟨x, _, hex⟩ := he
  exact hex.symm

/-- Witness for C5: the zero-intensity behaviour instantiated at a concrete
zero intensity layer, `hmax = 40`, `n = 2`. -/
theorem predict_zero_intensity_behavior_witness :
    PredictEvent.pred_dt (fun x => x) (fun _ => [0]) [1] [1] 40 2 = 0 :=
  (predict_zero_intensity_behavior (fun x => x) (fun _ => [0]) [1] [1] 40 2
    (by intro t ht; simp)).1

/-- C6: the predictor builds the evenly spaced grid
`linspace(0, hmax, n+1)` with step `hmax / n` (grid point `i` is
`timestep * i`, endpoint `hmax`), forms the survival density at grid point
`i` as `totalIntensity i * exp(-(timestep * Σ_{j ≤ i} totalIntensity j))`
(running-sum cumulative hazard scaled by the step), and returns as predicted
inter-arrival time the trapezoidal-rule integral
`Σ_{i < n} timestep * ½ * (t·d(i+1) + t·d(i))` of `t * density(t)`. -/
theorem predict_quadrature_structure (ex : ℚ → ℚ) (il : List ℚ → List ℚ)
    (h_t decay : List ℚ) (hmax : ℚ) (n : ℕ) (hn : 0 < n) :
    (PredictEvent.time_between_events hmax n).length = n + 1 ∧
    (∀ i, i ≤ n → (PredictEvent.time_between_events hmax n).getD i 0
      = PredictEvent.timestep hmax n * i) ∧
    (PredictEvent.time_between_events hmax n).getD n 0 = hmax ∧
    (∀ i, i ≤ n → (PredictEvent.density ex il h_t decay hmax n).getD i 0
      = (PredictEvent.intensity_sum ex il h_t decay hmax n).getD i 0 *
        ex (-(PredictEvent.timestep hmax n *
          ∑ j ∈ Finset.range (i + 1),
            (PredictEvent.intensity_sum ex il h_t decay hmax n).getD j 0))) ∧
    PredictEvent.pred_dt ex il h_t decay hmax n
      = ∑ i ∈ Finset.range n, PredictEvent.timestep hmax n * (1 / 2) *
          ((PredictEvent.time_between_events hmax n).getD (i + 1) 0 *
              (PredictEvent.density ex il h_t decay hmax n).getD (i + 1) 0 +
            (PredictEvent.time_between_events hmax n).getD i 0 *
              (PredictEvent.density ex il h_t decay hmax n).getD i 0) := by
  have hn0 : (n : ℚ) ≠ 0 := Nat.cast_ne_zero.mpr (by omega)
  have hlen_t := PredictEvent.length_time_between_events hmax n
  have hlen_is := PredictEvent.length_intensity_sum ex il h_t decay hmax n
  have hlen_ch : (PredictEvent.cumHazard ex il h_t decay hmax n).length
      = n + 1 := by
    rw [PredictEvent.cumHazard, cumsum_length, List.length_map, hlen_is]
  have hlen_d : (PredictEvent.density ex il h_t decay hmax n).length
      = n + 1 := by
    rw [PredictEvent.density, List.length_zipWith, hlen_is, hlen_ch, min_self]
  have htbe : ∀ i, i ≤ n → (PredictEvent.time_between_events hmax n).getD i 0
      = PredictEvent.timestep hmax n * i := by
    intro i hi
    rw [PredictEvent.time_between_events, getD_map_range _ _ _ _ (by omega),
      PredictEvent.timestep]
    ring
  have hdens : ∀ i, i ≤ n →
      (PredictEvent.density ex il h_t decay hmax n).getD i 0
      = (PredictEvent.intensity_sum ex il h_t decay hmax n).getD i 0 *
        ex (-(PredictEvent.timestep hmax n *
          ∑ j ∈ Finset.range (i + 1),
            (PredictEvent.intensity_sum ex il h_t decay hmax n).getD j 0)) := by
    intro i hi
    rw [PredictEvent.density,
      getD_zipWith _ _ _ i (by omega) (by rw [hlen_ch]; omega)]
    congr 2
    rw [PredictEvent.cumHazard,
      cumsum_getD _ i (by rw [List.length_map, hlen_is]; omega),
      Finset.mul_sum, neg_inj]
    apply Finset.sum_congr rfl
    intro j hj
    have hji : j < n + 1 := by
      have := Finset.mem_range.mp hj
      omega
    exact getD_map_of_lt (fun s => PredictEvent.timestep hmax n * s) _ j
      (by rw [hlen_is]; omega) 0 0
  refine ⟨hlen_t, htbe, ?_, hdens, ?_⟩
  · rw [htbe n le_rfl, PredictEvent.timestep]
    field_simp
  · rw [PredictEvent.pred_dt, zipWith_tail_sum]
    have hlen_td : (PredictEvent.tDensity ex il h_t decay hmax n).length
        = n + 1 := by
      rw [PredictEvent.tDensity, List.length_zipWith, hlen_t, hlen_d, min_self]
    rw [hlen_td]
    simp only [Nat.add_sub_cancel]
    apply Finset.sum_congr rfl
    intro i hi
    have hii := Finset.mem_range.mp hi
    have h1 : (PredictEvent.tDensity ex il h_t decay hmax n).getD (i + 1) 0
        = (PredictEvent.time_between_events hmax n).getD (i + 1) 0 *
          (PredictEvent.density ex il h_t decay hmax n).getD (i + 1) 0 := by
      rw [PredictEvent.tDensity,
        getD_zipWith _ _ _ (i + 1) (by omega) (by rw [hlen_d]; omega)]
    have h2 : (PredictEvent.tDensity ex il h_t decay hmax n).getD i 0
        = (PredictEvent.time_between_events hmax n).getD i 0 *
          (PredictEvent.density ex il h_t decay hmax n).getD i 0 := by
      rw [PredictEvent.tDensity,
        getD_zipWith _ _ _ i (by omega) (by rw [hlen_d]; omega)]
    rw [h1, h2]

/-- Witness for C6: the quadrature structure instantiated at `hmax = 40`,
`n = 2`, identity collaborators. -/
theorem predict_quadrature_structure_witness :
    (PredictEvent.time_between_events 40 2).length = 2 + 1 :=
  (predict_quadrature_structure (fun x => x) (fun v => v) [] [] 40 2
    (by norm_num)).1
